import Mathlib

/-!
Verification development for the dbmeta tabular data engine
(src/dbmeta: store.py, tuple_store.py, json_store.py, database.py,
column.py, weakcoll.py).

The Python source is shallowly embedded: rows are lists of values,
stores are structures carrying the row data, the handle registry is the
list of positions of the live registered row handles, and the JSON
synchronizer is modelled as a pure state transformer whose file effects
are returned explicitly.
-/

/-- Cell values held in a row slot.  The scenarios in the claims only use
strings and integers. -/
inductive Val where
  | vstr (s : String)
  | vint (n : Int)
deriving DecidableEq, Repr

/-- State of a mutable sequential store together with the positions of the
live row handles registered against its database
(`DBBase._references`, a `WeakColl`; only live handles are modelled since
dead ones are pruned silently and the claims quantify over live ones). -/
structure SeqSt where
  data : List (List Val)
  refs : List Nat
deriving DecidableEq, Repr

/-- The remap dictionary built by `MutableSeqStore.__delitem__`
(store.py line 156): `remap = \x7bidx + 1: idx for idx in range(row_idx, len(self))\x7d`,
where `len(self)` is measured after the physical removal.  Keys are
`row_idx + 1 .. len_post`, each mapped to its predecessor. -/
def buildRemap (row_idx len_post p : Nat) : Option Nat :=
  if row_idx + 1 ≤ p ∧ p ≤ len_post then some (p - 1) else none

/-- `SeqDatabase._remap_indices` (database.py lines 433-444): every
registered handle whose position is a key of the remap dictionary is
moved to the mapped value; a handle whose position is not a key is left
alone (the `KeyError` is passed over). -/
def remap_indices (remap : Nat → Option Nat) (refs : List Nat) : List Nat :=
  refs.map (fun p => (remap p).getD p)

/-- `MutableTupleSeqStore.__delitem__` (tuple_store.py lines 64-66)
followed by the base `MutableSeqStore.__delitem__` (store.py lines
147-159): the row is physically removed first, then the remap dictionary
is built from the post-removal length and applied to the registered
handles.  (`SeqDatabase.__delitem__` additionally unregisters the handle
of the deleted row itself; the claims concern the other handles.) -/
def seqStoreDelitem (st : SeqSt) (row_idx : Nat) : SeqSt :=
  let data' := st.data.eraseIdx row_idx
  let lenPost := data'.length
  { data := data', refs := remap_indices (buildRemap row_idx lenPost) st.refs }

/-- C1: for a sequential table, after deleting the row at a valid position
`i`, every registered live handle whose position was greater than `i` has
its position decremented by exactly one, and every handle whose position
was less than `i` is unchanged; the remap is built after the physical
removal from the post-removal length (`buildRemap i (data.eraseIdx i).length`). -/
theorem seq_delete_remaps_handles (st : SeqSt) (i : Nat)
    (hi : i < st.data.length) (j p : Nat) (hj : st.refs[j]? = some p)
    (hp : p < st.data.length) :
    (seqStoreDelitem st i).data = st.data.eraseIdx i ∧
    (i < p → (seqStoreDelitem st i).refs[j]? = some (p - 1)) ∧
    (p < i → (seqStoreDelitem st i).refs[j]? = some p) := by
  refine ⟨rfl, ?_, ?_⟩
  · intro hlt
    simp only [seqStoreDelitem, remap_indices, List.getElem?_map, hj,
      Option.map_some']
    have hlen : (st.data.eraseIdx i).length = st.data.length - 1 := by
      rw [List.length_eraseIdx]
      simp [hi]
    have hcond : i + 1 ≤ p ∧ p ≤ (st.data.eraseIdx i).length := by
      constructor
      · omega
      · rw [hlen]; omega
    simp [buildRemap, hcond]
  · intro hgt
    simp only [seqStoreDelitem, remap_indices, List.getElem?_map, hj,
      Option.map_some']
    have hcond : ¬(i + 1 ≤ p ∧ p ≤ (st.data.eraseIdx i).length) := by
      intro h
      omega
    simp [buildRemap, hcond]

/-- Witness for C1: a table of three rows with handles at positions 0, 1
and 2; deleting the row at position 1 leaves the handle at 0 untouched and
moves the handle at 2 to 1. -/
theorem seq_delete_remaps_handles_witness :
    (seqStoreDelitem ⟨[[Val.vint 10], [Val.vint 20], [Val.vint 30]], [0, 2]⟩ 1).refs[1]? =
      some 1 ∧
    (seqStoreDelitem ⟨[[Val.vint 10], [Val.vint 20], [Val.vint 30]], [0, 2]⟩ 1).refs[0]? =
      some 0 :=
  ⟨((seq_delete_remaps_handles ⟨[[Val.vint 10], [Val.vint 20], [Val.vint 30]], [0, 2]⟩
      1 (by decide) 1 2 (by decide) (by decide)).2.1 (by decide)),
   ((seq_delete_remaps_handles ⟨[[Val.vint 10], [Val.vint 20], [Val.vint 30]], [0, 2]⟩
      1 (by decide) 0 0 (by decide) (by decide)).2.2 (by decide))⟩

/-! ## Store class hierarchy: mutability flags and immutable-store errors

The four store base classes (store.py).  `is_mutable` is a constant
property on each class; the immutable bases answer every write attempt
with `ValueError("Attempting to modify immutable store!")`. -/

/-- The store base classes of store.py. -/
inductive StoreCls where
  | seqStore          -- SeqStore (immutable sequential base)
  | assocStore        -- AssocStore (immutable associative base)
  | mutableSeqStore   -- MutableSeqStore
  | mutableAssocStore -- MutableAssocStore
deriving DecidableEq, Repr

/-- Outcome of calling a mutating method on a store class: either the
immutable-store `ValueError` from the base class, or dispatch to the
(abstract) mutable implementation. -/
inductive MutMethod where
  | raisesImmutable
  | dispatches
deriving DecidableEq, Repr

/-- `is_mutable` per class: SeqStore.is_mutable (store.py 86-88) returns
False; AssocStore.is_mutable (store.py 105-107) returns True; both
mutable bases return True. -/
def storeIsMutable : StoreCls → Bool
  | .seqStore => false
  | .assocStore => true
  | .mutableSeqStore => true
  | .mutableAssocStore => true

/-- `add` on the associative classes: AssocStore.add (store.py 109-111)
raises the immutable-store error; MutableAssocStore.add is abstract and
implemented by the mutable stores. -/
def storeAdd : StoreCls → MutMethod
  | .assocStore => .raisesImmutable
  | _ => .dispatches

/-- `__setitem__`: Store.__setitem__ (store.py 62-64) raises the
immutable-store error; both mutable bases override it abstractly. -/
def storeSetitem : StoreCls → MutMethod
  | .seqStore => .raisesImmutable
  | .assocStore => .raisesImmutable
  | _ => .dispatches

/-- `__delitem__`: Store.__delitem__ (store.py 66-68) raises the
immutable-store error; both mutable bases override it abstractly. -/
def storeDelitemMeth : StoreCls → MutMethod
  | .seqStore => .raisesImmutable
  | .assocStore => .raisesImmutable
  | _ => .dispatches

/-- `DBBase.is_mutable` (database.py 343-345) simply forwards to the
store. -/
def dbIsMutable (s : StoreCls) : Bool := storeIsMutable s

/-- C10: every associative store variant reports `is_mutable` as True,
including the immutable associative base whose `add`, item assignment and
item deletion all raise the immutable-store error, while the immutable
sequential base reports False; hence a database backed by the immutable
associative base reports itself mutable. -/
theorem assoc_store_mutability_flags :
    storeIsMutable StoreCls.assocStore = true ∧
    storeIsMutable StoreCls.mutableAssocStore = true ∧
    storeAdd StoreCls.assocStore = MutMethod.raisesImmutable ∧
    storeSetitem StoreCls.assocStore = MutMethod.raisesImmutable ∧
    storeDelitemMeth StoreCls.assocStore = MutMethod.raisesImmutable ∧
    storeIsMutable StoreCls.seqStore = false ∧
    dbIsMutable StoreCls.assocStore = true := by
  decide

/-! ## Sequential database item access (C6)

`SeqDatabase.__getitem__` (database.py 415-423) remaps a negative index
to `len + index` and raises `IndexError` when that is still negative; it
then calls `DBBase.__getitem__` (database.py 364-368), which constructs
`self._row_cls(self, idx)`.  `Row.__init__` (database.py 292-305)
registers the new handle in `db._references`.  The `super()` call on
line 423 is *not* returned, so the method body falls off the end and the
call evaluates to Python `None`; no upper bound is checked for
non-negative indices. -/

/-- Result of `SeqDatabase.__getitem__`: either an `IndexError` carrying
the offending index, or the post-call state (with the freshly registered
handle) together with the value the call returns — `some handle` would be
the row handle, `none` is Python None. -/
def seqGetitem (st : SeqSt) (i : Int) : Except Int (SeqSt × Option Nat) :=
  if i < 0 then
    let pos := (st.data.length : Int) + i
    if pos < 0 then
      Except.error i
    else
      -- line 423: `super(SeqDatabase, self).__getitem__(index)` — the
      -- handle is created and registered but the result is not returned
      Except.ok ({ st with refs := st.refs ++ [pos.toNat] }, none)
  else
    Except.ok ({ st with refs := st.refs ++ [i.toNat] }, none)

/-- C6 (code divergence record): on a one-row table, `get(-1)` registers
a handle for position 0 but evaluates to None instead of returning the
handle (missing `return` on database.py line 423), `get(5)` raises no
out-of-bounds error at all (it registers a dangling handle for position
5), and only `get(-3)` raises `IndexError`.  The claim that `get` returns
the new RowHandle and rejects out-of-range non-negative positions fails
on this input. -/
theorem seq_getitem_returns_none :
    seqGetitem ⟨[[Val.vstr "a"]], []⟩ (-1) =
      Except.ok (⟨[[Val.vstr "a"]], [0]⟩, none) ∧
    seqGetitem ⟨[[Val.vstr "a"]], []⟩ 5 =
      Except.ok (⟨[[Val.vstr "a"]], [5]⟩, none) ∧
    seqGetitem ⟨[[Val.vstr "a"]], []⟩ (-3) = Except.error (-3) :=
  ⟨rfl, rfl, rfl⟩

/-! ## Schema resolution (DBMeta.__new__, database.py 191-279)

`DBMeta.__new__` walks the linearised bases least-derived first, collects
column descriptions into an `OrderedDict` (assignment to an existing key
keeps its position; non-column attributes of a base delete a key), applies
the locally declared descriptions, picks the index column, and enumerates
the surviving descriptions to assign slot indices. -/

/-- The conversion functions used by the claims (identity, and the
int-to-string remote encoding of the scenario key column). -/
inductive Conv where
  | idConv
  | intToStr
  | strToInt
deriving DecidableEq, Repr

/-- Decimal digits to a number (the scenario keys are non-negative). -/
def digitsToNat (cs : List Char) : Nat :=
  cs.foldl (fun n c => n * 10 + (c.toNat - 48)) 0

/-- Apply a conversion function to a value. -/
def applyConv : Conv → Val → Val
  | .idConv, v => v
  | .intToStr, .vint n => .vstr (toString n)
  | .intToStr, v => v
  | .strToInt, .vstr s => .vint (digitsToNat s.toList)
  | .strToInt, v => v

/-- `ColumnDesc` (column.py 257-327): the fields read during resolution
and row conversion.  `default = none` models `ColumnDesc.NO_DEFAULT`;
`key = none` means the remote key falls back to the column name. -/
structure ColDesc where
  colCls : Option String := none
  default : Option Val := none
  key : Option String := none
  typ : Conv := .idConv
  storeTyp : Conv := .idConv
  readF : Conv := .idConv
  writeF : Conv := .idConv
deriving DecidableEq, Repr

/-- `IndexColumnDesc` (column.py 433-488): the index column description
with its local and remote conversion pairs. -/
structure IdxDesc where
  typ : Conv := .idConv
  storeTyp : Conv := .idConv
  readF : Conv := .idConv
  writeF : Conv := .idConv
deriving DecidableEq, Repr

/-- A class-body attribute as inspected by `DBMeta.__new__`: a column
description, an index column description, or anything else. -/
inductive Attr where
  | colDesc (d : ColDesc)
  | idxDesc (d : IdxDesc)
  | plain
deriving DecidableEq, Repr

/-- What `DBMeta.__new__` reads off one base of the linearised mro:
whether the base is itself a DBMeta class, its resolved `_columns`
(name and description, in slot order), its index column, and the keys of
its `__dict__`. -/
structure BaseInfo where
  isDB : Bool := false
  columns : List (String × ColDesc) := []
  indexName : String := "index"
  indexDesc : IdxDesc := {}
  attrs : List String := []
deriving DecidableEq, Repr

/-- `OrderedDict` assignment: updating an existing key keeps its position;
a new key is appended at the end. -/
def odSet (od : List (String × ColDesc)) (k : String) (v : ColDesc) :
    List (String × ColDesc) :=
  if od.any (fun p => p.1 = k) then
    od.map (fun p => if p.1 = k then (k, v) else p)
  else
    od ++ [(k, v)]

/-- `del column_descs[attr]` guarded by `except KeyError: pass`
(database.py 236-240): removing an absent key is a no-op. -/
def odDel (od : List (String × ColDesc)) (k : String) :
    List (String × ColDesc) :=
  od.filter (fun p => p.1 ≠ k)

/-- The base walk of database.py 222-240: least-derived bases first, each
DBMeta base contributes its columns (keeping existing positions) and its
index column; then every `__dict__` attribute of the base that is not one
of its own columns deletes the description of the same name. -/
def collectBase (acc : List (String × ColDesc) × String × IdxDesc)
    (base : BaseInfo) : List (String × ColDesc) × String × IdxDesc :=
  let od1 :=
    if base.isDB then base.columns.foldl (fun o p => odSet o p.1 p.2) acc.1
    else acc.1
  let thisCols :=
    if base.isDB then base.columns.map (fun p => p.1) else []
  let idx := if base.isDB then (base.indexName, base.indexDesc) else acc.2
  (base.attrs.foldl
      (fun o a => if thisCols.contains a then o else odDel o a) od1,
    idx)

/-- Errors raised during class creation by `DBMeta.__new__`. -/
inductive SchemaErr where
  | reservedAttr
  | multipleIndexColumns
  | noColumnClass (name : String)
deriving DecidableEq, Repr

/-- The local scan of database.py 244-253: column descriptions are
assigned into the ordered mapping, a second locally declared index column
raises `ValueError`, and any other attribute is ignored. -/
def scanGo : List (String × Attr) → List (String × ColDesc) →
    Option (String × IdxDesc) →
    Except SchemaErr (List (String × ColDesc) × Option (String × IdxDesc))
  | [], od, idx => Except.ok (od, idx)
  | p :: rest, od, idx =>
    match p.2 with
    | .colDesc d => scanGo rest (odSet od p.1 d) idx
    | .idxDesc d =>
        match idx with
        | none => scanGo rest od (some (p.1, d))
        | some _ => Except.error SchemaErr.multipleIndexColumns
    | .plain => scanGo rest od idx

def scanLocal (dct : List (String × Attr))
    (od : List (String × ColDesc)) :
    Except SchemaErr (List (String × ColDesc) × Option (String × IdxDesc)) :=
  scanGo dct od none

/-- A resolved column: name, slot index, column class and description
(`Column.__init__`, column.py 335-339, created on database.py 263). -/
structure RCol where
  name : String
  index : Nat
  cls : String
  desc : ColDesc
deriving DecidableEq, Repr

/-- A resolved table schema: the ordered column tuple `_columns` and the
single designated index column `_index_column`. -/
structure Schema where
  columns : List RCol
  indexName : String
  indexDesc : IdxDesc
deriving DecidableEq, Repr

/-- The `enumerate(iteritems(column_descs))` loop of database.py 258-264,
written with an explicit counter: each surviving description, in order,
becomes a column whose slot index is its position. -/
def enumCols (defaultColCls : Option String) :
    List (String × ColDesc) → Nat → List RCol
  | [], _ => []
  | p :: rest, i =>
      { name := p.1, index := i,
        cls := (p.2.colCls.orElse (fun _ => defaultColCls)).getD "",
        desc := p.2 } :: enumCols defaultColCls rest (i + 1)

/-- `DBMeta.__new__` (database.py 191-265): the reserved-attribute check,
the base walk, the local scan, index column choice, and the enumeration
that assigns slot indices `0..n-1` while resolving each column class
(the source raises `ValueError` inside the loop at the first column with
no resolvable class; here the check is hoisted before the enumeration,
with the same observable outcome). -/
def resolveSchema (bases : List BaseInfo) (dct : List (String × Attr))
    (defaultColCls : Option String) : Except SchemaErr Schema :=
  if dct.any (fun p => p.1 = "_columns" ∨ p.1 = "_index_column") then
    Except.error SchemaErr.reservedAttr
  else
    match scanLocal dct (bases.foldl collectBase ([], "index", ({} : IdxDesc))).1 with
    | Except.error e => Except.error e
    | Except.ok r =>
      match r.1.find? (fun p => (p.2.colCls.orElse (fun _ => defaultColCls)).isNone) with
      | some p => Except.error (SchemaErr.noColumnClass p.1)
      | none =>
          Except.ok
            { columns := enumCols defaultColCls r.1 0,
              indexName :=
                (r.2.getD (bases.foldl collectBase ([], "index", ({} : IdxDesc))).2).1,
              indexDesc :=
                (r.2.getD (bases.foldl collectBase ([], "index", ({} : IdxDesc))).2).2 }

/-! ## C4: dense slot indices, unique names, one index column -/

/-- The keys of an ordered column mapping. -/
def odKeys (od : List (String × ColDesc)) : List String :=
  od.map (fun p => p.1)

theorem odSet_keys_nodup (od : List (String × ColDesc)) (k : String)
    (v : ColDesc) (h : (odKeys od).Nodup) : (odKeys (odSet od k v)).Nodup := by
  unfold odSet
  by_cases hc : od.any (fun p => p.1 = k) = true
  · rw [if_pos hc]
    have hkeys :
        odKeys (od.map (fun p => if p.1 = k then (k, v) else p)) = odKeys od := by
      unfold odKeys
      rw [List.map_map]
      apply List.map_congr_left
      intro p _
      by_cases h1 : p.1 = k
      · simp [h1]
      · simp [h1]
    rw [hkeys]
    exact h
  · rw [if_neg hc]
    have hk : k ∉ odKeys od := by
      intro hm
      apply hc
      rw [List.any_eq_true]
      obtain ⟨p, hp, hpk⟩ := List.mem_map.1 hm
      exact ⟨p, hp, by simp [hpk]⟩
    unfold odKeys at *
    rw [List.map_append, List.nodup_append]
    refine ⟨h, by simp, ?_⟩
    intro a ha hb
    simp only [List.map_cons, List.map_nil, List.mem_singleton] at hb
    subst hb
    exact hk ha

theorem odDel_keys_nodup (od : List (String × ColDesc)) (k : String)
    (h : (odKeys od).Nodup) : (odKeys (odDel od k)).Nodup := by
  unfold odDel odKeys
  exact List.Nodup.sublist (List.Sublist.map _ (List.filter_sublist _)) h

theorem foldl_odSet_keys_nodup (cols : List (String × ColDesc)) :
    ∀ od : List (String × ColDesc), (odKeys od).Nodup →
      (odKeys (cols.foldl (fun o p => odSet o p.1 p.2) od)).Nodup := by
  induction cols with
  | nil => intro od h; exact h
  | cons c rest ih =>
      intro od h
      exact ih (odSet od c.1 c.2) (odSet_keys_nodup od c.1 c.2 h)

theorem foldl_attrDel_keys_nodup (attrs : List String) (thisCols : List String) :
    ∀ od : List (String × ColDesc), (odKeys od).Nodup →
      (odKeys (attrs.foldl
        (fun o a => if thisCols.contains a then o else odDel o a) od)).Nodup := by
  induction attrs with
  | nil => intro od h; exact h
  | cons a rest ih =>
      intro od h
      simp only [List.foldl_cons]
      by_cases hc : thisCols.contains a = true
      · rw [if_pos hc]; exact ih od h
      · rw [if_neg hc]; exact ih (odDel od a) (odDel_keys_nodup od a h)

theorem collectBase_keys_nodup (b : BaseInfo)
    (acc : List (String × ColDesc) × String × IdxDesc)
    (h : (odKeys acc.1).Nodup) : (odKeys (collectBase acc b).1).Nodup := by
  unfold collectBase
  apply foldl_attrDel_keys_nodup
  by_cases hb : b.isDB = true
  · rw [if_pos hb]; exact foldl_odSet_keys_nodup b.columns acc.1 h
  · rw [if_neg hb]; exact h

theorem foldl_collectBase_keys_nodup (bases : List BaseInfo) :
    ∀ acc : List (String × ColDesc) × String × IdxDesc, (odKeys acc.1).Nodup →
      (odKeys (bases.foldl collectBase acc).1).Nodup := by
  induction bases with
  | nil => intro acc h; exact h
  | cons b rest ih =>
      intro acc h
      exact ih (collectBase acc b) (collectBase_keys_nodup b acc h)

theorem scanGo_keys_nodup (dct : List (String × Attr)) :
    ∀ (od : List (String × ColDesc)) (idx : Option (String × IdxDesc))
      (od' : List (String × ColDesc)) (idx' : Option (String × IdxDesc)),
      scanGo dct od idx = Except.ok (od', idx') → (odKeys od).Nodup →
      (odKeys od').Nodup := by
  induction dct with
  | nil =>
      intro od idx od' idx' hok h
      simp only [scanGo, Except.ok.injEq, Prod.mk.injEq] at hok
      obtain ⟨h1, _⟩ := hok
      subst h1
      exact h
  | cons p rest ih =>
      intro od idx od' idx' hok h
      simp only [scanGo] at hok
      cases hp : p.2 with
      | colDesc d =>
          rw [hp] at hok
          exact ih (odSet od p.1 d) idx od' idx' hok (odSet_keys_nodup od p.1 d h)
      | idxDesc d =>
          rw [hp] at hok
          cases idx with
          | none => exact ih od (some (p.1, d)) od' idx' hok h
          | some q => cases hok
      | plain =>
          rw [hp] at hok
          exact ih od idx od' idx' hok h

theorem enumCols_map_name (defCls : Option String) :
    ∀ (od : List (String × ColDesc)) (i : Nat),
      (enumCols defCls od i).map RCol.name = odKeys od := by
  intro od
  induction od with
  | nil => intro i; rfl
  | cons p rest ih =>
      intro i
      simp [enumCols, odKeys, ih (i + 1)]

theorem enumCols_map_index (defCls : Option String) :
    ∀ (od : List (String × ColDesc)) (i : Nat),
      (enumCols defCls od i).map RCol.index = List.range' i od.length := by
  intro od
  induction od with
  | nil => intro i; rfl
  | cons p rest ih =>
      intro i
      simp only [enumCols, List.map_cons, ih (i + 1), List.length_cons]
      rfl

theorem enumCols_length (defCls : Option String) :
    ∀ (od : List (String × ColDesc)) (i : Nat),
      (enumCols defCls od i).length = od.length := by
  intro od
  induction od with
  | nil => intro i; rfl
  | cons p rest ih => intro i; simp [enumCols, ih (i + 1)]

/-- Recognizer for locally declared index column descriptions. -/
def isIdxAttr (p : String × Attr) : Bool :=
  match p.2 with
  | .idxDesc _ => true
  | _ => false

theorem scanGo_err_of_some (dct : List (String × Attr)) :
    ∀ (od : List (String × ColDesc)) (q : String × IdxDesc),
      1 ≤ dct.countP isIdxAttr →
      scanGo dct od (some q) = Except.error SchemaErr.multipleIndexColumns := by
  induction dct with
  | nil =>
      intro od q hcount
      simp at hcount
  | cons p rest ih =>
      intro od q hcount
      simp only [scanGo]
      cases hp : p.2 with
      | colDesc d =>
          apply ih
          rw [List.countP_cons] at hcount
          simpa [isIdxAttr, hp] using hcount
      | idxDesc d => rfl
      | plain =>
          apply ih
          rw [List.countP_cons] at hcount
          simpa [isIdxAttr, hp] using hcount

theorem scanGo_err_of_two (dct : List (String × Attr)) :
    ∀ od : List (String × ColDesc),
      2 ≤ dct.countP isIdxAttr →
      scanGo dct od none = Except.error SchemaErr.multipleIndexColumns := by
  induction dct with
  | nil =>
      intro od hcount
      simp at hcount
  | cons p rest ih =>
      intro od hcount
      simp only [scanGo]
      cases hp : p.2 with
      | colDesc d =>
          apply ih
          rw [List.countP_cons] at hcount
          simpa [isIdxAttr, hp] using hcount
      | idxDesc d =>
          apply scanGo_err_of_some
          rw [List.countP_cons] at hcount
          have hip : isIdxAttr p = true := by simp [isIdxAttr, hp]
          rw [hip] at hcount
          simpa using hcount
      | plain =>
          apply ih
          rw [List.countP_cons] at hcount
          simpa [isIdxAttr, hp] using hcount

/-- C4: whenever schema resolution succeeds, the resolved column list has
pairwise distinct names and its slot indices are exactly the dense
sequence `0..n-1` in final column order; and the resolution designates
exactly one index column - in particular declaring two index columns in
one class body is rejected with the `MultipleIndexColumns` error rather
than producing a second key column. -/
theorem resolve_schema_invariants (bases : List BaseInfo)
    (dct : List (String × Attr)) (defCls : Option String) :
    (∀ s : Schema, resolveSchema bases dct defCls = Except.ok s →
      (s.columns.map RCol.name).Nodup ∧
      s.columns.map RCol.index = List.range s.columns.length) ∧
    (dct.any (fun p => p.1 = "_columns" ∨ p.1 = "_index_column") = false →
      2 ≤ dct.countP isIdxAttr →
      resolveSchema bases dct defCls = Except.error SchemaErr.multipleIndexColumns) := by
  constructor
  · intro s hok
    unfold resolveSchema at hok
    by_cases hres : dct.any (fun p => p.1 = "_columns" ∨ p.1 = "_index_column") = true
    · rw [if_pos hres] at hok
      cases hok
    · rw [if_neg hres] at hok
      have hnodup0 :
          (odKeys (bases.foldl collectBase
            ([], "index", ({} : IdxDesc))).1).Nodup :=
        foldl_collectBase_keys_nodup bases ([], "index", ({} : IdxDesc))
          (by simp [odKeys])
      cases hscan : scanLocal dct (bases.foldl collectBase
          ([], "index", ({} : IdxDesc))).1 with
      | error e =>
          rw [hscan] at hok
          cases hok
      | ok r =>
          rw [hscan] at hok
          obtain ⟨od, thisIdx⟩ := r
          have hnodup : (odKeys od).Nodup :=
            scanGo_keys_nodup dct _ none od thisIdx hscan hnodup0
          dsimp only at hok
          cases hfind : od.find?
              (fun p => (p.2.colCls.orElse (fun _ => defCls)).isNone) with
          | some p =>
              rw [hfind] at hok
              cases hok
          | none =>
              rw [hfind] at hok
              cases hok
              constructor
              · rw [enumCols_map_name]
                exact hnodup
              · rw [enumCols_map_index, enumCols_length, List.range_eq_range']
  · intro hres hcount
    unfold resolveSchema
    rw [if_neg (by rw [Bool.not_eq_true]; exact hres)]
    have hscan : scanLocal dct (bases.foldl collectBase
        ([], "index", ({} : IdxDesc))).1 = Except.error SchemaErr.multipleIndexColumns :=
      scanGo_err_of_two dct _ hcount
    rw [hscan]

/-- Witness for C4: a two-column local declaration resolves to distinct
names with slots `[0, 1]`, and a body declaring two index columns is
rejected. -/
theorem resolve_schema_invariants_witness :
    ((Schema.mk
        [⟨"a", 0, "Column", {}⟩, ⟨"b", 1, "Column", {}⟩] "index" {}).columns.map
          RCol.name).Nodup ∧
    resolveSchema [] [("i", Attr.idxDesc {}), ("j", Attr.idxDesc {})]
        (some "Column") = Except.error SchemaErr.multipleIndexColumns :=
  ⟨((resolve_schema_invariants []
        [("a", Attr.colDesc {}), ("b", Attr.colDesc {})] (some "Column")).1
      (Schema.mk [⟨"a", 0, "Column", {}⟩, ⟨"b", 1, "Column", {}⟩] "index" {})
      rfl).1,
    (resolve_schema_invariants [] [("i", Attr.idxDesc {}), ("j", Attr.idxDesc {})]
        (some "Column")).2 (by decide) (by decide)⟩

/-! ## Row data conversion (C9, C7)

`DBBase._convert_data_for_store` (database.py 395-410) walks the resolved
columns, popping each column name out of the supplied mapping, falling
back to the declared default (raising `KeyError` on a no-default column),
and applying the column store-direction conversion; any keys left over
after the loop raise `KeyError("Unknown fields ...")` listing them. -/

/-- Errors raised while converting row data. -/
inductive ConvErr where
  | missingField (name : String)
  | unknownFields (names : List String)
  | duplicateKey (key : Val)
deriving DecidableEq, Repr

/-- `data.pop(name)` on a Python dict: return the value for the key and
the mapping without it, or signal absence. -/
def popKey (data : List (String × Val)) (k : String) :
    Option Val × List (String × Val) :=
  match data.find? (fun p => p.1 = k) with
  | some p => (some p.2, data.eraseP (fun q => q.1 = k))
  | none => (none, data)

/-- The column loop plus the trailing unknown-field check of
`_convert_data_for_store`; `acc` is the `store_data` mapping built up in
column order. -/
def convertGo : List RCol → List (String × Val) → List (String × Val) →
    Except ConvErr (List (String × Val))
  | [], data, acc =>
      if data.isEmpty then Except.ok acc
      else Except.error (ConvErr.unknownFields (data.map (fun p => p.1)))
  | c :: rest, data, acc =>
      match popKey data c.name with
      | (some v, dataPopped) =>
          convertGo rest dataPopped
            (acc ++ [(c.name, applyConv c.desc.storeTyp v)])
      | (none, _) =>
          match c.desc.default with
          | some d =>
              convertGo rest data
                (acc ++ [(c.name, applyConv c.desc.storeTyp d)])
          | none => Except.error (ConvErr.missingField c.name)

/-- `DBBase._convert_data_for_store` (database.py 395-410). -/
def convert_data_for_store (cols : List RCol) (data : List (String × Val)) :
    Except ConvErr (List (String × Val)) :=
  convertGo cols data []

/-- `TupleStore._dict_to_tuple` (tuple_store.py 12-16): build the physical
tuple in column order via `read_identity` (value by name, else default,
else `KeyError`). -/
def dict_to_tuple (cols : List RCol) (data : List (String × Val)) :
    Except ConvErr (List Val) :=
  cols.mapM (fun c =>
    match data.find? (fun p => p.1 = c.name) with
    | some p => Except.ok p.2
    | none =>
        match c.desc.default with
        | some d => Except.ok d
        | none => Except.error (ConvErr.missingField c.name))

/-- `SeqDatabase.append` (database.py 451-454) followed by
`MutableTupleSeqStore.append` (tuple_store.py 55-56): the data is
converted before the store is touched, so a conversion error leaves the
store contents unchanged. -/
def dbAppend (cols : List RCol) (st : SeqSt) (data : List (String × Val)) :
    Except ConvErr SeqSt :=
  match convert_data_for_store cols data with
  | Except.error e => Except.error e
  | Except.ok sd =>
      match dict_to_tuple cols sd with
      | Except.error e => Except.error e
      | Except.ok tup => Except.ok { st with data := st.data ++ [tup] }

/-- `AssocDatabase.add` (database.py 471-478) followed by
`MutableTupleAssocStore.add` (tuple_store.py 96-100): the index value is
popped first and converted with the index column store conversion, the
remaining data is converted, then the duplicate-key check guards the
insertion. -/
def dbAdd (idxName : String) (idxStoreTyp : Conv) (cols : List RCol)
    (store : List (Val × List Val)) (data : List (String × Val)) :
    Except ConvErr (List (Val × List Val)) :=
  match popKey data idxName with
  | (none, _) => Except.error (ConvErr.missingField idxName)
  | (some v, rest) =>
      match convert_data_for_store cols rest with
      | Except.error e => Except.error e
      | Except.ok sd =>
          if store.any (fun q => q.1 = applyConv idxStoreTyp v) then
            Except.error (ConvErr.duplicateKey (applyConv idxStoreTyp v))
          else
            match dict_to_tuple cols sd with
            | Except.error e => Except.error e
            | Except.ok tup =>
                Except.ok (store ++ [(applyConv idxStoreTyp v, tup)])

/-- `Column.get` (column.py 368-370) through `TupleStore.__getitem__`
(tuple_store.py 30-32): the stored cell at the column slot, through the
column `type` conversion. -/
def columnGet (st : SeqSt) (c : RCol) (rowIdx : Nat) : Option Val :=
  (st.data[rowIdx]?).bind (fun t => (t[c.index]?).map (applyConv c.desc.typ))

theorem mem_keys_eraseP (k k' : String) (hne : k' ≠ k) :
    ∀ data : List (String × Val), k' ∈ data.map Prod.fst →
      k' ∈ (data.eraseP (fun p => p.1 = k)).map Prod.fst := by
  intro data
  induction data with
  | nil => intro h; simp at h
  | cons p0 rest ih =>
      intro h
      by_cases hpk : p0.1 = k
      · rw [List.eraseP_cons_of_pos (by simp [hpk])]
        simp only [List.map_cons, List.mem_cons] at h
        cases h with
        | inl h => exact absurd (h.trans hpk) hne
        | inr h => exact h
      · rw [List.eraseP_cons_of_neg (by simp [hpk])]
        simp only [List.map_cons, List.mem_cons] at h ⊢
        cases h with
        | inl h => exact Or.inl h
        | inr h => exact Or.inr (ih h)

theorem filter_keys_eraseP (k : String) (S : List String) :
    ∀ data : List (String × Val), (data.map Prod.fst).Nodup →
      (data.eraseP (fun p => p.1 = k)).filter (fun p => p.1 ∉ S) =
        data.filter (fun p => p.1 ∉ (k :: S)) := by
  intro data
  induction data with
  | nil => intro _; rfl
  | cons p0 rest ih =>
      intro hdk
      simp only [List.map_cons, List.nodup_cons] at hdk
      obtain ⟨hp0, hdkr⟩ := hdk
      by_cases hpk : p0.1 = k
      · rw [List.eraseP_cons_of_pos (by simp [hpk])]
        have hdrop : (decide (p0.1 ∉ (k :: S))) = false := by
          simp [hpk]
        rw [List.filter_cons, hdrop]
        simp only [Bool.false_eq_true, if_false]
        apply List.filter_congr
        intro q hq
        have hqk : q.1 ≠ k := by
          intro he
          apply hp0
          rw [← hpk] at he
          rw [← he]
          exact List.mem_map_of_mem Prod.fst hq
        simp [hqk]
      · rw [List.eraseP_cons_of_neg (by simp [hpk])]
        rw [List.filter_cons, List.filter_cons]
        have hcond : (decide (p0.1 ∉ S)) = (decide (p0.1 ∉ (k :: S))) := by
          simp [hpk]
        rw [hcond, ih hdkr]

theorem convertGo_unknown (cols : List RCol) :
    ∀ (data acc : List (String × Val)),
      (data.map Prod.fst).Nodup →
      (cols.map RCol.name).Nodup →
      (∀ c ∈ cols, c.name ∈ data.map Prod.fst ∨ c.desc.default.isSome = true) →
      data.filter (fun p => p.1 ∉ cols.map RCol.name) ≠ [] →
      convertGo cols data acc =
        Except.error (ConvErr.unknownFields
          ((data.filter (fun p => p.1 ∉ cols.map RCol.name)).map Prod.fst)) := by
  induction cols with
  | nil =>
      intro data acc hdk _ _ hex
      have hfilter :
          data.filter (fun p => p.1 ∉ ([] : List RCol).map RCol.name) = data := by
        apply List.filter_eq_self.mpr
        intro p _
        simp
      rw [hfilter] at hex ⊢
      cases data with
      | nil => exact absurd rfl hex
      | cons p0 rest => rfl
  | cons c rest ih =>
      intro data acc hdk hck hcov hex
      rw [List.map_cons] at hck
      obtain ⟨hcnotin, hckr⟩ := List.nodup_cons.mp hck
      simp only [convertGo, popKey]
      cases hfind : data.find? (fun p => p.1 = c.name) with
      | some q =>
          simp only
          have hfk : (data.eraseP (fun p => p.1 = c.name)).filter
              (fun p => p.1 ∉ rest.map RCol.name) =
              data.filter (fun p => p.1 ∉ (c :: rest).map RCol.name) := by
            rw [List.map_cons]
            exact filter_keys_eraseP c.name (rest.map RCol.name) data hdk
          rw [ih (data.eraseP (fun p => p.1 = c.name)) _ ?_ hckr ?_ ?_, hfk]
          · exact List.Nodup.sublist
              (List.Sublist.map Prod.fst (List.eraseP_sublist data)) hdk
          · intro c' hc'
            cases hcov c' (List.mem_cons_of_mem c hc') with
            | inl h =>
                left
                apply mem_keys_eraseP c.name c'.name ?_ data h
                intro he
                apply hcnotin
                rw [← he]
                exact List.mem_map_of_mem RCol.name hc'
            | inr h => right; exact h
          · rw [hfk]
            exact hex
      | none =>
          simp only
          have hnotmem : ∀ p ∈ data, p.1 ≠ c.name := by
            intro p hp
            have := List.find?_eq_none.mp hfind p hp
            simpa using this
          cases hcov c (List.mem_cons_self c rest) with
          | inl h =>
              exfalso
              obtain ⟨p, hp, hpk⟩ := List.mem_map.1 h
              exact hnotmem p hp hpk
          | inr h =>
              cases hd : c.desc.default with
              | none => rw [hd] at h; simp at h
              | some d =>
                  have hfc : data.filter (fun p => p.1 ∉ rest.map RCol.name) =
                      data.filter (fun p => p.1 ∉ (c :: rest).map RCol.name) := by
                    apply List.filter_congr
                    intro p hp
                    simp [hnotmem p hp]
                  dsimp only
                  rw [ih data _ hdk hckr ?_ ?_, hfc]
                  · intro c' hc'
                    exact hcov c' (List.mem_cons_of_mem c hc')
                  · rw [hfc]
                    exact hex

theorem convertGo_unknown_cov (cols : List RCol) :
    ∀ (data acc : List (String × Val)) (l : List String),
      convertGo cols data acc = Except.error (ConvErr.unknownFields l) →
      ∀ c ∈ cols, c.name ∈ data.map Prod.fst ∨ c.desc.default.isSome = true := by
  induction cols with
  | nil =>
      intro data acc l _ c hc
      simp at hc
  | cons c0 rest ih =>
      intro data acc l h c hc
      simp only [convertGo, popKey] at h
      cases hfind : data.find? (fun p => p.1 = c0.name) with
      | some q =>
          rw [hfind] at h
          simp only at h
          have hq1 : q.1 = c0.name := by
            simpa using List.find?_some hfind
          have hqmem : q ∈ data := List.mem_of_find?_eq_some hfind
          cases List.mem_cons.mp hc with
          | inl hcc =>
              left
              rw [hcc, ← hq1]
              exact List.mem_map_of_mem Prod.fst hqmem
          | inr hcr =>
              cases ih _ _ _ h c hcr with
              | inl hmem =>
                  left
                  exact List.Sublist.subset
                    (List.Sublist.map Prod.fst (List.eraseP_sublist data)) hmem
              | inr hdef => right; exact hdef
      | none =>
          rw [hfind] at h
          simp only at h
          cases hd : c0.desc.default with
          | none => rw [hd] at h; cases h
          | some d =>
              rw [hd] at h
              cases List.mem_cons.mp hc with
              | inl hcc => right; rw [hcc, hd]; rfl
              | inr hcr => exact ih _ _ _ h c hcr

/-- C9: if the supplied row data covers every declared column (explicitly
or through a default) and still contains names matching no column, then
conversion fails with a `KeyError` listing exactly those unknown names,
`append` and `add` propagate that error without touching the store (the
conversion runs before any store mutation), and conversely an
unknown-fields error can only arise once every declared column has
received a value. -/
theorem append_add_reject_unknown_fields (cols : List RCol)
    (data : List (String × Val))
    (hdk : (data.map Prod.fst).Nodup)
    (hck : (cols.map RCol.name).Nodup)
    (hcov : ∀ c ∈ cols, c.name ∈ data.map Prod.fst ∨ c.desc.default.isSome = true)
    (hex : data.filter (fun p => p.1 ∉ cols.map RCol.name) ≠ []) :
    convert_data_for_store cols data =
      Except.error (ConvErr.unknownFields
        ((data.filter (fun p => p.1 ∉ cols.map RCol.name)).map Prod.fst)) ∧
    (∀ st : SeqSt, dbAppend cols st data =
      Except.error (ConvErr.unknownFields
        ((data.filter (fun p => p.1 ∉ cols.map RCol.name)).map Prod.fst))) ∧
    (∀ (idxName : String) (ityp : Conv) (v : Val)
        (store : List (Val × List Val)),
      dbAdd idxName ityp cols store ((idxName, v) :: data) =
        Except.error (ConvErr.unknownFields
          ((data.filter (fun p => p.1 ∉ cols.map RCol.name)).map Prod.fst))) ∧
    (∀ l : List String,
      convert_data_for_store cols data = Except.error (ConvErr.unknownFields l) →
      ∀ c ∈ cols, c.name ∈ data.map Prod.fst ∨ c.desc.default.isSome = true) := by
  have hconv := convertGo_unknown cols data [] hdk hck hcov hex
  refine ⟨hconv, ?_, ?_, ?_⟩
  · intro st
    unfold dbAppend convert_data_for_store
    rw [hconv]
  · intro idxName ityp v store
    unfold dbAdd
    have hpop : popKey ((idxName, v) :: data) idxName = (some v, data) := by
      unfold popKey
      rw [List.find?_cons_of_pos _ (by simp)]
      simp only
      rw [List.eraseP_cons_of_pos (by simp)]
    rw [hpop]
    simp only
    unfold convert_data_for_store
    rw [hconv]
  · intro l h
    exact convertGo_unknown_cov cols data [] l h

/-- Witness for C9: one declared column `name` plus an unknown `bogus`
field makes conversion, `append` and `add` fail with the unknown-field
error naming exactly `bogus`. -/
theorem append_add_reject_unknown_fields_witness :
    convert_data_for_store [⟨"name", 0, "Column", {}⟩]
        [("name", Val.vstr "a"), ("bogus", Val.vstr "b")] =
      Except.error (ConvErr.unknownFields ["bogus"]) ∧
    dbAppend [⟨"name", 0, "Column", {}⟩] ⟨[], []⟩
        [("name", Val.vstr "a"), ("bogus", Val.vstr "b")] =
      Except.error (ConvErr.unknownFields ["bogus"]) :=
  ⟨(append_add_reject_unknown_fields [⟨"name", 0, "Column", {}⟩]
      [("name", Val.vstr "a"), ("bogus", Val.vstr "b")]
      (by decide) (by decide)
      (by intro c hc; simp at hc; subst hc; left; decide)
      (by decide)).1,
    (append_add_reject_unknown_fields [⟨"name", 0, "Column", {}⟩]
      [("name", Val.vstr "a"), ("bogus", Val.vstr "b")]
      (by decide) (by decide)
      (by intro c hc; simp at hc; subst hc; left; decide)
      (by decide)).2.1 ⟨[], []⟩⟩

/-! ## C7: override keeps the slot, takes the new description

The scenario: `Base` declares the key column `id` (int locally, string
remotely) and a no-default string column `name`; `Derived(Base)`
redeclares `name` with default `"x"`.  `OrderedDict` assignment keeps the
position of an existing key, so `name` keeps the slot it had in `Base`
while carrying the description declared on `Derived`. -/

/-- The scenario key column description: local int, remote string. -/
def idxIntStr : IdxDesc := { readF := Conv.strToInt, writeF := Conv.intToStr }

/-- The class body of `Base`. -/
def dctBase : List (String × Attr) :=
  [("id", Attr.idxDesc idxIntStr), ("name", Attr.colDesc {})]

/-- What `DBMeta.__new__` reads off the created `Base` class when it is
used as a base of `Derived`: its resolved columns, its index column, and
its `__dict__` keys (the class body names plus the attributes the
metaclass itself assigns). -/
def baseB : BaseInfo :=
  { isDB := true,
    columns := [("name", {})],
    indexName := "id",
    indexDesc := idxIntStr,
    attrs := ["_col_cls", "id", "name", "_index_column", "_columns", "_row_cls"] }

/-- The class body of `Derived`: `name` redeclared with default `"x"`. -/
def dctDerived : List (String × Attr) :=
  [("name", Attr.colDesc { default := some (Val.vstr "x") })]

/-- C7: resolving `Base` puts `name` at slot 0; resolving
`Derived(Base)` keeps `name` at the same slot but with the description
declared on `Derived` (default `"x"`), the key column stays `id`;
appending a row with no `name` value then succeeds and stores `"x"`, and
reading the column of the new row yields `"x"`. -/
theorem derived_override_keeps_slot_takes_default :
    resolveSchema [] dctBase (some "Column") =
      Except.ok { columns := [⟨"name", 0, "Column", {}⟩],
                  indexName := "id", indexDesc := idxIntStr } ∧
    resolveSchema [baseB] dctDerived (some "Column") =
      Except.ok { columns :=
                    [⟨"name", 0, "Column", { default := some (Val.vstr "x") }⟩],
                  indexName := "id", indexDesc := idxIntStr } ∧
    dbAppend [⟨"name", 0, "Column", { default := some (Val.vstr "x") }⟩]
        ⟨[], []⟩ [] =
      Except.ok ⟨[[Val.vstr "x"]], []⟩ ∧
    columnGet ⟨[[Val.vstr "x"]], []⟩
        ⟨"name", 0, "Column", { default := some (Val.vstr "x") }⟩ 0 =
      some (Val.vstr "x") :=
  ⟨rfl, rfl, rfl, rfl⟩

/-! ## JSON document synchronizer (C2, C3, C5)

`MutableJSONStore` (json_store.py) keeps a list `_patches` of JSON-patch
operations accumulated since construction.  `update()` re-reads the
on-disk document, applies the accumulated patch log to it and replaces
the in-memory data with the result; `write()` calls `update()` and then
dumps `to_dict("JSON")` to the primary path.  File effects are returned
explicitly here.  Patch paths, which the source builds as `/`-joined
strings such as `"/1"` or `"/0/name"`, are modelled as their segment
lists. -/

/-- The value carried by a patch operation: a whole row object or a
single cell. -/
inductive PatchVal where
  | cell (v : Val)
  | row (r : List (String × Val))
deriving DecidableEq, Repr

/-- One JSON-patch operation, as the dicts built in json_store.py
(`\x7b"op": ..., "path": ..., "value": ...\x7d`); the path is the segment list
of the JSON pointer the source formats as a string. -/
structure Patch where
  op : String
  path : List String
  value : Option PatchVal := none
deriving DecidableEq, Repr

/-- A JSON row object. -/
abbrev RowObj := List (String × Val)

/-- The on-disk document of an associative table: an object keyed by
string-encoded identity values. -/
abbrev JsonDoc := List (String × RowObj)

/-- One step of the external `jsonpatch` library on an object document,
modelled from its RFC-6902 contract (the spec treats patch application as
a consumed interface): `remove` and `test` fail when the path does not
exist, `test` fails when the value differs, `add` inserts or replaces,
`replace` rewrites an existing member of an existing row. -/
def applyPatchObj (d : JsonDoc) (p : Patch) : Except String JsonDoc :=
  match p.path, p.op, p.value with
  | [k], "remove", _ =>
      if d.any (fun q => q.1 = k) then Except.ok (d.filter (fun q => q.1 ≠ k))
      else Except.error "remove: path does not exist"
  | [k], "add", some (.row r) =>
      if d.any (fun q => q.1 = k) then
        Except.ok (d.map (fun q => if q.1 = k then (k, r) else q))
      else Except.ok (d ++ [(k, r)])
  | [k], "test", some (.row r) =>
      match d.find? (fun q => q.1 = k) with
      | some q => if q.2 = r then Except.ok d else Except.error "test failed"
      | none => Except.error "test: path does not exist"
  | [k, f], "replace", some (.cell v) =>
      match d.find? (fun q => q.1 = k) with
      | none => Except.error "replace: path does not exist"
      | some q =>
          if q.2.any (fun e => e.1 = f) then
            Except.ok (d.map (fun q2 =>
              if q2.1 = k then
                (k, q2.2.map (fun e => if e.1 = f then (f, v) else e))
              else q2))
          else Except.error "replace: member does not exist"
  | _, _, _ => Except.error "unsupported operation"

/-- `jsonpatch.JsonPatch(self._patches).apply(on_disk)`: the operations
in arrival order, stopping at the first failing precondition. -/
def applyPatches (d : JsonDoc) (ps : List Patch) : Except String JsonDoc :=
  ps.foldlM applyPatchObj d

/-- State of a `MutableJSONAssocStore`: the document path, the in-memory
rows keyed by the local-typed identity value, the accumulated patch log
`_patches`, and the `update_on_change` flag. -/
structure AStore where
  dbFile : String
  data : List (Val × List Val)
  patches : List Patch
  upOnChange : Bool := false
deriving DecidableEq, Repr

/-- The remote key of a column (`Column.key`, column.py 341-352): the
configured mapping entry, falling back to the column name. -/
def remoteKey (c : RCol) : String := c.desc.key.getD c.name

/-- `TupleStore._remote_from_tuple` (tuple_store.py 23-28): each column
writes its slot value under its remote key through its write conversion. -/
def remote_from_tuple (cols : List RCol) (t : List Val) : RowObj :=
  cols.map (fun c => (remoteKey c, applyConv c.desc.writeF (t.getD c.index (Val.vstr ""))))

/-- `TupleStore._remote_to_tuple` (tuple_store.py 19-21): each column
reads its remote key through its read conversion, falling back to the
declared default and raising `KeyError` when there is none. -/
def remote_to_tuple (cols : List RCol) (r : RowObj) : Except String (List Val) :=
  cols.mapM (fun c =>
    match r.find? (fun e => e.1 = remoteKey c) with
    | some e => Except.ok (applyConv c.desc.readF e.2)
    | none =>
        match c.desc.default with
        | some d => Except.ok (applyConv c.desc.readF d)
        | none => Except.error "KeyError")

/-- A JSON object key is a string; the index write conversion is expected
to produce one (a stray integer is rendered). -/
def valAsKey : Val → String
  | .vstr s => s
  | .vint n => toString n

/-- `TupleAssocStore.to_dict` (tuple_store.py 81-85). -/
def toDictA (cols : List RCol) (idxW : Conv) (data : List (Val × List Val)) :
    JsonDoc :=
  data.map (fun q => (valAsKey (applyConv idxW q.1), remote_from_tuple cols q.2))

/-- `TupleAssocStore.from_dict` (tuple_store.py 75-79). -/
def fromDictA (cols : List RCol) (idxR : Conv) (d : JsonDoc) :
    Except String (List (Val × List Val)) :=
  d.mapM (fun q =>
    (remote_to_tuple cols q.2).map (fun t => (applyConv idxR (Val.vstr q.1), t)))

/-- Content of a file opened for writing: either a dumped document, or
nothing - the file was created or truncated but the dump crashed before
writing any document into it. -/
inductive FileDump where
  | emptyFile
  | doc (d : JsonDoc)
deriving DecidableEq, Repr

/-- Result of `MutableJSONStore.update`: the store afterwards, the side
files opened for writing with what ended up in them, and the raised
error if any. -/
structure UpdResult where
  store : AStore
  sideWrites : List (String × FileDump)
  err : Option String
deriving DecidableEq, Repr

/-- `MutableJSONStore.update` (json_store.py 61-90): nothing happens when
the file is absent; otherwise the accumulated patch log is applied to the
freshly read document.  On failure (lines 78-89) the source computes both
side-file names `<path>.<stamp>` and `<path>.<stamp>.jsonpatch`, but only
the first is ever opened; the dump on line 88 then calls `self.to_dict()`
without the `store_type` argument that the only `to_dict` in the MRO
requires (`TupleAssocStore.to_dict`, tuple_store.py 81), so the opened
side file is left empty, no document is written, and `TypeError` - not
the patch exception the `raise e` on line 89 would re-raise - propagates;
the `.jsonpatch` file is never opened at all.  On success the in-memory
data is replaced by the patched document; the patch log `_patches` is
never cleared anywhere in the source. -/
def updateOp (cols : List RCol) (idxR idxW : Conv) (st : AStore)
    (disk : Option JsonDoc) (stamp : String) : UpdResult :=
  match disk with
  | none => ⟨st, [], none⟩
  | some onDisk =>
      match applyPatches onDisk st.patches with
      | Except.error _ =>
          ⟨st, [(st.dbFile ++ "." ++ stamp, FileDump.emptyFile)],
            some "TypeError: to_dict missing required argument store_type"⟩
      | Except.ok patched =>
          match fromDictA cols idxR patched with
          | Except.error e => ⟨st, [], some e⟩
          | Except.ok newData => ⟨{ st with data := newData }, [], none⟩

/-- Result of `MutableJSONStore.write`: like `UpdResult` plus the content
written to the primary path, if any. -/
structure WriteResult where
  store : AStore
  sideWrites : List (String × FileDump)
  primaryWrite : Option JsonDoc
  err : Option String
deriving DecidableEq, Repr

/-- `MutableJSONStore.write` (json_store.py 92-101): run `update()`, and
when it does not raise, dump `to_dict("JSON")` over the primary path. -/
def writeOp (cols : List RCol) (idxR idxW : Conv) (st : AStore)
    (disk : Option JsonDoc) (stamp : String) : WriteResult :=
  match updateOp cols idxR idxW st disk stamp with
  | ⟨st1, sw, some e⟩ => ⟨st1, sw, none, some e⟩
  | ⟨st1, sw, none⟩ => ⟨st1, sw, some (toDictA cols idxW st1.data), none⟩

/-- `MutableJSONAssocStore.__delitem__` (json_store.py 156-161): the
superclass call physically removes the row (`KeyError` when absent); then
line 158 evaluates `self._index_column.write_func(index, "JSON")`, where
`index` is an unbound name (the parameter is `idx`), so the method raises
`NameError` after the removal and the `remove` patch of line 159 is never
appended. -/
def assocDelItem (st : AStore) (k : Val) : AStore × Option String :=
  if st.data.any (fun q => q.1 = k) then
    ({ st with data := st.data.filter (fun q => q.1 ≠ k) },
      some "NameError: name index is not defined")
  else (st, some "KeyError")

/-- The single column of the JSON scenarios. -/
def colsName : List RCol := [⟨"name", 0, "Column", {}⟩]

/-- C5 (code divergence record): on the associative JSON table holding
keys `"1"` and `"2"`, deleting key `"1"` removes the row from the
in-memory store but then raises `NameError` (unbound `index` on
json_store.py line 158); the patch log stays empty, so the claimed
`remove` patch `\x7b"op": "remove", "path": "/1"\x7d` is never appended and a
later flush cannot remove the key from disk. -/
theorem assoc_delete_raises_name_error :
    assocDelItem
        ⟨"db.json", [(Val.vstr "1", [Val.vstr "a"]), (Val.vstr "2", [Val.vstr "b"])],
          [], false⟩ (Val.vstr "1") =
      (⟨"db.json", [(Val.vstr "2", [Val.vstr "b"])], [], false⟩,
        some "NameError: name index is not defined") ∧
    (assocDelItem
        ⟨"db.json", [(Val.vstr "1", [Val.vstr "a"]), (Val.vstr "2", [Val.vstr "b"])],
          [], false⟩ (Val.vstr "1")).1.patches ≠
      [⟨"remove", ["1"], none⟩] := by
  constructor
  · rfl
  · decide

/-- The store of the conflict scenarios: one remaining row keyed `"2"`
and a pending `remove /1` patch. -/
def stRemoveOne : AStore :=
  ⟨"db.json", [(Val.vstr "2", [Val.vstr "b"])], [⟨"remove", ["1"], none⟩], false⟩

/-- An on-disk document from which key `"1"` has already disappeared. -/
def diskMissingOne : JsonDoc := [("2", [("name", Val.vstr "b")])]

/-- An on-disk document still holding both keys. -/
def diskBothKeys : JsonDoc :=
  [("1", [("name", Val.vstr "a")]), ("2", [("name", Val.vstr "b")])]

/-- C2 (code divergence record): with a pending `remove /1` patch and an
on-disk document from which key `"1"` has disappeared, `write()` leaves
the primary document unwritten and the in-memory patch log unchanged,
but instead of the claimed two side files it opens exactly one,
`<path>.<stamp>`, and even that one ends up empty: the dump calls
`to_dict()` without the required `store_type` argument, so `TypeError`
propagates rather than a sync-conflict error, and the
`<path>.<stamp>.jsonpatch` file with the unapplied patch log is never
produced. -/
theorem conflict_writes_single_side_file :
    (writeOp colsName Conv.idConv Conv.idConv stRemoveOne
        (some diskMissingOne) "1700").err =
      some "TypeError: to_dict missing required argument store_type" ∧
    (writeOp colsName Conv.idConv Conv.idConv stRemoveOne
        (some diskMissingOne) "1700").sideWrites = [("db.json.1700", FileDump.emptyFile)] ∧
    "db.json.1700.jsonpatch" ∉
      ((writeOp colsName Conv.idConv Conv.idConv stRemoveOne
        (some diskMissingOne) "1700").sideWrites.map Prod.fst) ∧
    (writeOp colsName Conv.idConv Conv.idConv stRemoveOne
        (some diskMissingOne) "1700").primaryWrite = none ∧
    (writeOp colsName Conv.idConv Conv.idConv stRemoveOne
        (some diskMissingOne) "1700").store.patches =
      [⟨"remove", ["1"], none⟩] := by
  refine ⟨?_, ?_, ?_, rfl, rfl⟩ <;> decide

/-- C3 (code divergence record): after a successful flush the patch log
is *not* cleared (`_patches` is never reset anywhere in json_store.py),
so a second flush with no intervening mutation re-applies the same
non-empty log against the just-written document; the stale `remove /1`
fails there, its fallback dump crashes with `TypeError` (leaving an empty
`<path>.<stamp>` side file and no document), and the second flush raises
instead of being a no-op. -/
theorem flush_twice_reapplies_stale_log :
    (writeOp colsName Conv.idConv Conv.idConv stRemoveOne
        (some diskBothKeys) "1").err = none ∧
    (writeOp colsName Conv.idConv Conv.idConv stRemoveOne
        (some diskBothKeys) "1").store.patches = [⟨"remove", ["1"], none⟩] ∧
    (writeOp colsName Conv.idConv Conv.idConv
        (writeOp colsName Conv.idConv Conv.idConv stRemoveOne
          (some diskBothKeys) "1").store
        (writeOp colsName Conv.idConv Conv.idConv stRemoveOne
          (some diskBothKeys) "1").primaryWrite
        "2").err =
      some "TypeError: to_dict missing required argument store_type" ∧
    (writeOp colsName Conv.idConv Conv.idConv
        (writeOp colsName Conv.idConv Conv.idConv stRemoveOne
          (some diskBothKeys) "1").store
        (writeOp colsName Conv.idConv Conv.idConv stRemoveOne
          (some diskBothKeys) "1").primaryWrite
        "2").primaryWrite = none ∧
    (writeOp colsName Conv.idConv Conv.idConv
        (writeOp colsName Conv.idConv Conv.idConv stRemoveOne
          (some diskBothKeys) "1").store
        (writeOp colsName Conv.idConv Conv.idConv stRemoveOne
          (some diskBothKeys) "1").primaryWrite
        "2").sideWrites = [("db.json.2", FileDump.emptyFile)] := by
  refine ⟨rfl, rfl, ?_, rfl, ?_⟩ <;> decide

/-! ## C8: C3 linearisation (c3_merge, database.py 18-46)

The while loop of `c3_merge`: pick the first pending chain whose head
does not appear in the tail of any pending chain, emit that head and
strip it from the chain heads, dropping exhausted chains; raise `TypeError`
naming the heads of the pending chains when no such head exists.  The
loop is written with a fuel parameter bounding the number of iterations
(each iteration shortens at least one chain, so any fuel at least the
total number of chain elements is enough); the one-step behaviour proved
below holds for every fuel. -/

/-- `any(l[0] in l2[1:] for l2 in to_merge)`: does `h` appear in the tail
of some pending chain. -/
def inTailsB (ls : List (List Nat)) (h : Nat) : Bool :=
  ls.any (fun l2 => decide (h ∈ l2.drop 1))

/-- The good-head test of database.py line 37 (the source indexes `l[0]`
under the loop invariant that pending chains are non-empty; the emptiness
guard makes the predicate total). -/
def goodHeadB (ls : List (List Nat)) (l : List Nat) : Bool :=
  !l.isEmpty && !(inTailsB ls (l.headD 0))

/-- Line 44: strip the emitted head from the front of every pending chain
and drop chains that become empty. -/
def c3Step (h : Nat) (ls : List (List Nat)) : List (List Nat) :=
  (ls.map (fun l2 => if l2.head? = some h then l2.tail else l2)).filter
    (fun l2 => !l2.isEmpty)

/-- The merge loop of `c3_merge` (database.py 32-44). -/
def c3_merge (fuel : Nat) (ls : List (List Nat)) :
    Except (List Nat) (List Nat) :=
  match fuel with
  | 0 => if ls = [] then Except.ok [] else Except.error []
  | fuel + 1 =>
      if ls = [] then Except.ok []
      else
        match ls.find? (goodHeadB ls) with
        | none => Except.error (ls.filterMap List.head?)
        | some l =>
            (c3_merge fuel (c3Step (l.headD 0) ls)).map
              (fun rest => l.headD 0 :: rest)

/-- `h` appears in the tail of some pending chain (specification side). -/
def InTail (ls : List (List Nat)) (h : Nat) : Prop :=
  ∃ l2 ∈ ls, h ∈ l2.tail

/-- The emitted head, in the words of the claim: the head of a pending
chain that appears in no pending tail, every earlier chain in declaration
order having a head that does appear in some pending tail. -/
def IsFirstGoodHead (ls : List (List Nat)) (h : Nat) : Prop :=
  ∃ pre l post, ls = pre ++ l :: post ∧ l.head? = some h ∧ ¬InTail ls h ∧
    ∀ l2 ∈ pre, ∀ h2, l2.head? = some h2 → InTail ls h2

theorem find?_decomp {α : Type} (p : α → Bool) :
    ∀ (l : List α) (a : α), l.find? p = some a →
      ∃ pre post, l = pre ++ a :: post ∧ (∀ x ∈ pre, p x = false) ∧
        p a = true := by
  intro l
  induction l with
  | nil => intro a h; cases h
  | cons x rest ih =>
      intro a h
      by_cases hpx : p x = true
      · rw [List.find?_cons_of_pos _ hpx] at h
        cases h
        exact ⟨[], rest, rfl, by intro y hy; simp at hy, hpx⟩
      · rw [List.find?_cons_of_neg _ (by simpa using hpx)] at h
        obtain ⟨pre, post, hl, hpre, hpa⟩ := ih a h
        refine ⟨x :: pre, post, by rw [hl, List.cons_append], ?_, hpa⟩
        intro y hy
        cases List.mem_cons.mp hy with
        | inl hyx =>
            subst hyx
            exact Bool.eq_false_iff.mpr hpx
        | inr hyp => exact hpre y hyp

theorem inTailsB_iff (ls : List (List Nat)) (h : Nat) :
    inTailsB ls h = true ↔ InTail ls h := by
  unfold inTailsB InTail
  rw [List.any_eq_true]
  constructor
  · rintro ⟨l2, hl2, hmem⟩
    exact ⟨l2, hl2, by simpa [List.drop_one] using hmem⟩
  · rintro ⟨l2, hl2, hmem⟩
    exact ⟨l2, hl2, by simpa [List.drop_one] using hmem⟩

/-- C8: one step of the merge loop, for every fuel value and every
pending state with non-empty chains - when the first good head exists it
is emitted (and it satisfies the claim description of the candidate
rule), the loop recursing on the stripped chains; when no good head
exists the loop fails with the error naming the heads of the pending
chains.  The loop is a function of its input, so the output is
deterministic. -/
theorem c3_merge_step_spec (fuel : Nat) (ls : List (List Nat))
    (hwf : [] ∉ ls) :
    (∀ (l : List Nat) (h : Nat), ls.find? (goodHeadB ls) = some l →
      l.head? = some h →
      IsFirstGoodHead ls h ∧
      c3_merge (fuel + 1) ls =
        (c3_merge fuel (c3Step h ls)).map (fun rest => h :: rest)) ∧
    (ls ≠ [] → ls.find? (goodHeadB ls) = none →
      c3_merge (fuel + 1) ls = Except.error (ls.filterMap List.head?)) := by
  constructor
  · intro l h hfind hhead
    obtain ⟨pre, post, hls, hpre, hgood⟩ := find?_decomp (goodHeadB ls) ls l hfind
    have hlne : l ≠ [] := by
      intro he
      rw [he] at hhead
      cases hhead
    have hheadD : l.headD 0 = h := by
      cases l with
      | nil => exact absurd rfl hlne
      | cons a t =>
          cases hhead
          rfl
    have hgood' : inTailsB ls (l.headD 0) = false := by
      unfold goodHeadB at hgood
      rw [Bool.and_eq_true] at hgood
      simpa using hgood.2
    have hne : ls ≠ [] := by
      rw [hls]
      simp
    constructor
    · refine ⟨pre, l, post, hls, hhead, ?_, ?_⟩
      · intro hin
        rw [hheadD] at hgood'
        rw [← inTailsB_iff] at hin
        rw [hin] at hgood'
        cases hgood'
      · intro l2 hl2 h2 hh2
        have hl2mem : l2 ∈ ls := by
          rw [hls]
          exact List.mem_append_left _ hl2
        have hbad := hpre l2 hl2
        unfold goodHeadB at hbad
        rw [Bool.and_eq_false_iff] at hbad
        cases hbad with
        | inl hemp =>
            exfalso
            have : l2 = [] := by
              simpa using hemp
            rw [this] at hh2
            cases hh2
        | inr htail =>
            rw [← inTailsB_iff]
            have hh2D : l2.headD 0 = h2 := by
              cases l2 with
              | nil => cases hh2
              | cons a t =>
                  cases hh2
                  rfl
            rw [← hh2D]
            simpa using htail
    · rw [c3_merge]
      rw [if_neg hne, hfind]
      dsimp only
      rw [hheadD]
  · intro hne hfind
    rw [c3_merge]
    rw [if_neg hne, hfind]

/-- Witness for C8: on the chains `[[1, 2], [2]]` the loop emits head 1
(the first good head) and recurses; on `[[1, 2], [2, 1]]` no head is
good and the loop fails naming the pending heads 1 and 2. -/
theorem c3_merge_step_spec_witness :
    (IsFirstGoodHead [[1, 2], [2]] 1 ∧
      c3_merge 3 [[1, 2], [2]] =
        (c3_merge 2 (c3Step 1 [[1, 2], [2]])).map (fun rest => 1 :: rest)) ∧
    c3_merge 3 [[1, 2], [2, 1]] = Except.error [1, 2] :=
  ⟨(c3_merge_step_spec 2 [[1, 2], [2]] (by decide)).1 [1, 2] 1
      (by decide) (by decide),
    (c3_merge_step_spec 2 [[1, 2], [2, 1]] (by decide)).2
      (by decide) (by decide)⟩
